import Mathlib

/-!
Verification of the synchronization and caching subsystem of the
hatena-blog-mcp server (`server.py`).

The Python source is shallowly embedded:

* JSON-compatible values become the inductive `JValue`, with Python
  truthiness as `truthy`.
* The cache directory becomes an explicit `FS` state: a flag for
  directory existence plus an association list from file name
  (`<md5 hex of the logical key>.json`) to parsed file content.
  A file whose JSON is unparsable, whose `cached_at` string does not
  parse, or which lacks the `cached_at`/`data` fields is modelled as
  `FileContent.invalid`; otherwise `FileContent.valid cached_at data`.
  Timestamps are modelled as integer hour counts, so the expiry test
  `datetime.now() - cached_at > timedelta(hours=CACHE_EXPIRY_HOURS)`
  becomes `now - cached_at > CACHE_EXPIRY_HOURS`.
* `hashlib.md5(key.encode()).hexdigest()` is embedded as a full MD5
  implementation over `Nat` (`md5hex`), operating on the UTF-8 bytes
  of the key, exactly as the source does.
* Network access is factored out: a paginated walk consumes a list of
  page-fetch outcomes (`PageFetch`), one element per successive page,
  where the element after the current one exists exactly when the
  current page carries a `next` link (the spec's "correct next-page
  links" convention); per-entry detail fetches become a function
  `String → DetailFetch`.  The credential check at the top of every
  tool is an out-of-scope collaborator per the spec and is modelled
  as satisfied.
-/

set_option maxRecDepth 100000

namespace HatenaBlogMCP

/-! ## JSON-compatible values and Python truthiness -/

inductive JValue where
  | jnull
  | jbool (b : Bool)
  | jnum (n : Int)
  | jstr (s : String)
  | jarr (elems : List JValue)
  | jobj (fields : List (String × JValue))

/-- Python truthiness (`if cached:` / `if not cached:`). -/
def truthy : JValue → Bool
  | .jnull => false
  | .jbool b => b
  | .jnum n => n != 0
  | .jstr s => s != ""
  | .jarr xs => !xs.isEmpty
  | .jobj kvs => !kvs.isEmpty

/-! ## String helpers

`charLower`/`strLower` mirror `str.lower()` (all keys, titles and
keywords in the claims are ASCII; Python's full Unicode case mapping
agrees with this on ASCII).  `strContains hay needle` mirrors the
Python membership test `needle in hay`. -/

def charLower (c : Char) : Char :=
  if 65 ≤ c.toNat ∧ c.toNat ≤ 90 then Char.ofNat (c.toNat + 32) else c

def strLower (s : String) : String := String.mk (s.data.map charLower)

/-- Predicate `subMatch needle hay` : does `needle` occur as a contiguous
sublist of `hay`?  (Python `needle in hay` on strings.) -/
def subMatch (needle : List Char) : List Char → Bool
  | [] => needle.isEmpty
  | c :: rest => needle.isPrefixOf (c :: rest) || subMatch needle rest

def strContains (hay needle : String) : Bool := subMatch needle.data hay.data

/-! ## MD5 (`hashlib.md5(key.encode()).hexdigest()`) -/

/-- Per-round left-rotation amounts of MD5. -/
def md5S : List Nat :=
  [7, 12, 17, 22, 7, 12, 17, 22, 7, 12, 17, 22, 7, 12, 17, 22,
   5, 9, 14, 20, 5, 9, 14, 20, 5, 9, 14, 20, 5, 9, 14, 20,
   4, 11, 16, 23, 4, 11, 16, 23, 4, 11, 16, 23, 4, 11, 16, 23,
   6, 10, 15, 21, 6, 10, 15, 21, 6, 10, 15, 21, 6, 10, 15, 21]

/-- The 64 sine-derived MD5 round constants. -/
def md5K : List Nat :=
  [0xd76aa478, 0xe8c7b756, 0x242070db, 0xc1bdceee,
   0xf57c0faf, 0x4787c62a, 0xa8304613, 0xfd469501,
   0x698098d8, 0x8b44f7af, 0xffff5bb1, 0x895cd7be,
   0x6b901122, 0xfd987193, 0xa679438e, 0x49b40821,
   0xf61e2562, 0xc040b340, 0x265e5a51, 0xe9b6c7aa,
   0xd62f105d, 0x02441453, 0xd8a1e681, 0xe7d3fbc8,
   0x21e1cde6, 0xc33707d6, 0xf4d50d87, 0x455a14ed,
   0xa9e3e905, 0xfcefa3f8, 0x676f02d9, 0x8d2a4c8a,
   0xfffa3942, 0x8771f681, 0x6d9d6122, 0xfde5380c,
   0xa4beea44, 0x4bdecfa9, 0xf6bb4b60, 0xbebfbc70,
   0x289b7ec6, 0xeaa127fa, 0xd4ef3085, 0x04881d05,
   0xd9d4d039, 0xe6db99e5, 0x1fa27cf8, 0xc4ac5665,
   0xf4292244, 0x432aff97, 0xab9423a7, 0xfc93a039,
   0x655b59c3, 0x8f0ccc92, 0xffeff47d, 0x85845dd1,
   0x6fa87e4f, 0xfe2ce6e0, 0xa3014314, 0x4e0811a1,
   0xf7537e82, 0xbd3af235, 0x2ad7d2bb, 0xeb86d391]

def not32 (x : Nat) : Nat := 4294967295 - x % 4294967296

def rotl32 (x s : Nat) : Nat :=
  (((x % 4294967296) <<< s) % 4294967296) ||| ((x % 4294967296) >>> (32 - s))

def md5Round (M : List Nat) (st : Nat × Nat × Nat × Nat) (i : Nat) :
    Nat × Nat × Nat × Nat :=
  let a := st.1
  let b := st.2.1
  let c := st.2.2.1
  let d := st.2.2.2
  let fg : Nat × Nat :=
    if i < 16 then ((b &&& c) ||| (not32 b &&& d), i)
    else if i < 32 then ((d &&& b) ||| (not32 d &&& c), (5 * i + 1) % 16)
    else if i < 48 then (b ^^^ c ^^^ d, (3 * i + 5) % 16)
    else (c ^^^ (b ||| not32 d), (7 * i) % 16)
  let f := (fg.1 + a + md5K.getD i 0 + M.getD fg.2 0) % 4294967296
  (d, (b + rotl32 f (md5S.getD i 0)) % 4294967296, b, c)

def md5ProcessBlock (st : Nat × Nat × Nat × Nat) (M : List Nat) :
    Nat × Nat × Nat × Nat :=
  let r := (List.range 64).foldl (md5Round M) st
  ((st.1 + r.1) % 4294967296, (st.2.1 + r.2.1) % 4294967296,
   (st.2.2.1 + r.2.2.1) % 4294967296, (st.2.2.2 + r.2.2.2) % 4294967296)

/-- The `k` bytes of `n`, little-endian. -/
def toLEBytes (n k : Nat) : List Nat :=
  (List.range k).map fun i => (n >>> (8 * i)) % 256

/-- MD5 padding: a `0x80` byte, zeros to 56 mod 64, then the 64-bit
little-endian bit length. -/
def md5Pad (msg : List Nat) : List Nat :=
  msg ++ 128 :: List.replicate ((119 - msg.length % 64) % 64) 0
      ++ toLEBytes ((msg.length * 8) % 18446744073709551616) 8

/-- One 64-byte chunk as 16 little-endian 32-bit words. -/
def bytesToWords16 (bs : List Nat) : List Nat :=
  (List.range 16).map fun j =>
    bs.getD (4 * j) 0 + bs.getD (4 * j + 1) 0 * 256 +
      bs.getD (4 * j + 2) 0 * 65536 + bs.getD (4 * j + 3) 0 * 16777216

def md5Digest (msg : List Nat) : List Nat :=
  let padded := md5Pad msg
  let blocks := (List.range (padded.length / 64)).map
    fun i => bytesToWords16 ((padded.drop (64 * i)).take 64)
  let st := blocks.foldl md5ProcessBlock
    (0x67452301, 0xefcdab89, 0x98badcfe, 0x10325476)
  toLEBytes st.1 4 ++ toLEBytes st.2.1 4 ++
    toLEBytes st.2.2.1 4 ++ toLEBytes st.2.2.2 4

def hexDigit (n : Nat) : Char :=
  match n with
  | 0 => '0' | 1 => '1' | 2 => '2' | 3 => '3' | 4 => '4'
  | 5 => '5' | 6 => '6' | 7 => '7' | 8 => '8' | 9 => '9'
  | 10 => 'a' | 11 => 'b' | 12 => 'c' | 13 => 'd' | 14 => 'e'
  | _ => 'f'

def byteToHex (b : Nat) : List Char := [hexDigit (b / 16), hexDigit (b % 16)]

/-- UTF-8 encoding of one character (`str.encode()`). -/
def charUtf8 (c : Char) : List Nat :=
  let n := c.toNat
  if n < 128 then [n]
  else if n < 2048 then [192 + n / 64, 128 + n % 64]
  else if n < 65536 then [224 + n / 4096, 128 + (n / 64) % 64, 128 + n % 64]
  else [240 + n / 262144, 128 + (n / 4096) % 64, 128 + (n / 64) % 64,
    128 + n % 64]

def utf8Bytes (s : String) : List Nat :=
  s.data.foldr (fun c acc => charUtf8 c ++ acc) []

/-- Embeds `hashlib.md5(s.encode()).hexdigest()`. -/
def md5hex (s : String) : String :=
  String.mk ((md5Digest (utf8Bytes s)).foldr (fun b acc => byteToHex b ++ acc) [])

/-! ## Cache Store (`get_cache_path`, `load_cache`, `save_cache`, `clear_cache`)

The cache directory is an explicit state.  Every file the program ever
creates is named `<md5 hex of key>.json`, so `CACHE_DIR.glob("*.json")`
matches exactly the stored files. -/

/-- Parsed content of one cache file.  `invalid` stands for a file the
`except (json.JSONDecodeError, KeyError, ValueError)` handler of
`load_cache` rejects: unparsable JSON, a missing `cached_at`/`data`
field, or an unparsable `cached_at` string. -/
inductive FileContent where
  | invalid
  | valid (cachedAt : Int) (data : JValue)

structure FS where
  dirExists : Bool
  files : List (String × FileContent)

/-- Constant `CACHE_EXPIRY_HOURS = 24 * 365` (timestamps are in hours). -/
def CACHE_EXPIRY_HOURS : Int := 24 * 365

/-- Function `get_cache_path`: hash the key, append `.json` (the path is taken
relative to `CACHE_DIR`). -/
def get_cache_path (key : String) : String := md5hex key ++ ".json"

def eraseFile (files : List (String × FileContent)) (name : String) :
    List (String × FileContent) :=
  files.filter fun p => p.1 != name

/-- Function `load_cache`: returns the cached payload (or `none`) together with
the cache state after the call (expired or corrupt files are
deleted). -/
def load_cache (key : String) (now : Int) (fs : FS) : Option JValue × FS :=
  match fs.files.lookup (get_cache_path key) with
  | none => (none, fs)
  | some .invalid =>
    (none, { fs with files := eraseFile fs.files (get_cache_path key) })
  | some (.valid cachedAt data) =>
    if now - cachedAt > CACHE_EXPIRY_HOURS then
      (none, { fs with files := eraseFile fs.files (get_cache_path key) })
    else
      (some data, fs)

/-- Function `save_cache`: create the directory if needed and (over)write
`{cached_at: now, data}` at the hashed path. -/
def save_cache (key : String) (data : JValue) (now : Int) (fs : FS) : FS :=
  { dirExists := true,
    files := (get_cache_path key, FileContent.valid now data) ::
      eraseFile fs.files (get_cache_path key) }

/-- Function `clear_cache`: if the directory exists, unlink every `*.json` file
(that is, every stored file) and return `True`; otherwise return
`False`. -/
def clear_cache (fs : FS) : Bool × FS :=
  if fs.dirExists then (true, { fs with files := [] }) else (false, fs)

/-! ## `get_entry` -/

def entryNotFoundMsg : String := "記事が見つかりません。キャッシュを更新してください。"

/-- Function `get_entry`: purely a cache read — returns the cached record if
`load_cache` yields a truthy value, otherwise the not-found error.
No network request appears anywhere in its body. -/
def get_entry (entryId : String) (now : Int) (fs : FS) :
    Except String JValue × FS :=
  let r := load_cache ("entry_" ++ entryId) now fs
  match r.1 with
  | some v => if truthy v then (.ok v, r.2) else (.error entryNotFoundMsg, r.2)
  | none => (.error entryNotFoundMsg, r.2)

/-! ## `search_entries` (cache mode)

The loop body of lines 212–239 of `server.py`.  Each scanned file
contributes its `Path(...).stem` — which is already the MD5 hex of the
original logical key — and that stem is handed to `load_cache`, which
hashes it *again*. -/

/-- Computes `Path(f).stem` for the `*.json` files of the cache directory. -/
def stemOf (fname : String) : String :=
  String.mk (fname.data.take (fname.data.length - 5))

/-- Outcome of the per-entry match block: an exception (caught by the
`except` clause, entry skipped), a title / category / content match, or
no match. -/
inductive MatchOut where
  | exn
  | mtitle
  | mcat
  | mcontent
  | nomatch

/-- Embeds `cached.get(key, dflt)` — raises (`none`) unless `cached` is a
dict. -/
def pyGetField (v : JValue) (key : String) (dflt : JValue) : Option JValue :=
  match v with
  | .jobj fields => some ((fields.lookup key).getD dflt)
  | _ => none

/-- Embeds `any(kw in cat.lower() for cat in cats)` — lazily raises (`none`)
at the first non-string element reached. -/
def anyCatMatches (kw : String) : List JValue → Option Bool
  | [] => some false
  | .jstr s :: rest =>
    if strContains (strLower s) kw then some true else anyCatMatches kw rest
  | _ :: _ => none

/-- The title → categories → content match block (lines 218–232),
with `kw` already lowercased.  A non-dict record, non-string title or
content, or non-list categories value raises in Python and is mapped
to `.exn` (records written by this program never hit those cases). -/
def entryMatch (kw : String) (cached : JValue) : MatchOut :=
  match pyGetField cached "title" (.jstr "") with
  | none => .exn
  | some tv =>
    match tv with
    | .jstr t =>
      if strContains (strLower t) kw then .mtitle
      else
        match pyGetField cached "categories" (.jarr []) with
        | none => .exn
        | some cv =>
          match cv with
          | .jarr cs =>
            match anyCatMatches kw cs with
            | none => .exn
            | some true => .mcat
            | some false =>
              match pyGetField cached "content" (.jstr "") with
              | none => .exn
              | some ctv =>
                match ctv with
                | .jstr ct =>
                  if strContains (strLower ct) kw then .mcontent else .nomatch
                | _ => .exn
          | _ => .exn
    | _ => .exn

/-- The `for cache_file in CACHE_DIR.glob("*.json")` loop: iterate the
directory listing, `load_cache(cache_file.stem)` each file, skip falsy
results, collect matches; a title or category match `continue`s, so
the `len(matched) >= max_results` break is only reached after the
content check. -/
def searchScan (kw : String) (maxResults : Nat) (now : Int) :
    List (String × FileContent) → FS → List JValue → List JValue
  | [], _, acc => acc
  | (fname, _) :: rest, fs, acc =>
    let r := load_cache (stemOf fname) now fs
    match r.1 with
    | none => searchScan kw maxResults now rest r.2 acc
    | some cached =>
      if !truthy cached then searchScan kw maxResults now rest r.2 acc
      else
        match entryMatch kw cached with
        | .exn => searchScan kw maxResults now rest r.2 acc
        | .mtitle => searchScan kw maxResults now rest r.2 (acc ++ [cached])
        | .mcat => searchScan kw maxResults now rest r.2 (acc ++ [cached])
        | .mcontent =>
          if maxResults ≤ (acc ++ [cached]).length then acc ++ [cached]
          else searchScan kw maxResults now rest r.2 (acc ++ [cached])
        | .nomatch =>
          if maxResults ≤ acc.length then acc
          else searchScan kw maxResults now rest r.2 acc

structure SearchResult where
  entries : List JValue
  count : Nat
  keyword : String

def cacheMissingMsg : String :=
  "キャッシュが存在しません。サーバー側でキャッシュを更新してください。"

/-- Tool `search_entries(keyword, max_results)` — cache mode only; there is
no `search_in_content` parameter and no network access. -/
def search_entries (keyword : String) (maxResults : Nat) (now : Int)
    (fs : FS) : Except String SearchResult :=
  if !fs.dirExists then .error cacheMissingMsg
  else
    let matched := searchScan (strLower keyword) maxResults now fs.files fs []
    .ok { entries := matched.take maxResults,
          count := (matched.take maxResults).length,
          keyword := keyword }

/-! ## Pagination walk, `get_categories`, `sync_all_entries_to_cache`

A remote walk consumes a list of page-fetch outcomes, one per
successive page; an element has a successor in the list exactly when
its page carries a `next` link, which is the walkers' sole exit
condition (`if not next_url: break`). Each walker calls
`list_entries(page_url, max_results=50)`, whose XPath slice
`[:max_results]` keeps at most the first 50 entries of a page. -/

/-- The list-page projection of one entry (no content). -/
structure ListEntryR where
  id : String
  title : String
  link : String
  published : String
  updated : String
  categories : List String

/-- Result of one `list_entries` fetch: a non-200 status, or the
page's parsed entries. -/
inductive PageFetch where
  | fail (status : Nat)
  | page (entries : List ListEntryR)

def listFetchErr (status : Nat) : String :=
  "Failed to fetch entries: " ++ toString status

/-- Embeds `category_count[category] = category_count.get(category, 0) + 1`
on an insertion-ordered dict. -/
def bump : List (String × Nat) → String → List (String × Nat)
  | [], c => [(c, 1)]
  | (k, n) :: rest, c =>
    if k = c then (k, n + 1) :: rest else (k, n) :: bump rest c

def tallyEntry (acc : List (String × Nat)) (e : ListEntryR) :
    List (String × Nat) :=
  e.categories.foldl bump acc

def tallyPage (acc : List (String × Nat)) (es : List ListEntryR) :
    List (String × Nat) :=
  es.foldl tallyEntry acc

/-- The `while True` walk of `get_categories`: abort on a page error,
otherwise tally the (at most 50) entries of each page until a page has
no next link. -/
def get_categories_loop :
    List PageFetch → List (String × Nat) → Except String (List (String × Nat))
  | [], acc => .ok acc
  | .fail s :: _, _ => .error (listFetchErr s)
  | .page es :: rest, acc => get_categories_loop rest (tallyPage acc (es.take 50))

/-- Stable insertion step for a descending sort on the count: `x` goes
before the first element whose count is `≤` its own, so among equal
counts earlier elements stay first — the behaviour of Python's stable
`sorted(..., key=lambda x: x[1], reverse=True)`. -/
def insDesc (x : String × Nat) : List (String × Nat) → List (String × Nat)
  | [] => [x]
  | y :: ys => if y.2 ≤ x.2 then x :: y :: ys else y :: insDesc x ys

/-- Stable descending-by-count sort
(`sorted(category_count.items(), key=lambda x: x[1], reverse=True)`). -/
def sortCountDesc : List (String × Nat) → List (String × Nat)
  | [] => []
  | x :: xs => insDesc x (sortCountDesc xs)

/-- Tool `get_categories`: full walk, tally, stable descending sort; returns
the sorted `(name, count)` list and the `total`. -/
def get_categories (chain : List PageFetch) :
    Except String (List (String × Nat) × Nat) :=
  match get_categories_loop chain [] with
  | .error e => .error e
  | .ok tallyL => .ok (sortCountDesc tallyL, (sortCountDesc tallyL).length)

/-- Result of `fetch_entry_from_api` for one entry id: a detail
record, an `{"error": ...}` result (non-200 status or missing
config), or a raised exception. -/
inductive DetailFetch where
  | ok (detail : JValue)
  | err (status : Nat)
  | raised

/-- Embeds `entry["id"].split("-")[-1]`. -/
def extractEntryId (tagId : String) : String :=
  (tagId.splitOn "-").getLastD ""

/-- Body of the per-entry `try`/`except` of the sync loop: a
successful detail fetch is written to the cache and counted as synced;
an error result or an exception increments the error counter and the
loop continues. -/
def syncEntryStep (fd : String → DetailFetch) (now : Int)
    (st : Nat × Nat × FS) (e : ListEntryR) : Nat × Nat × FS :=
  let eid := extractEntryId e.id
  match fd eid with
  | .ok d => (st.1 + 1, st.2.1, save_cache ("entry_" ++ eid) d now st.2.2)
  | .err _ => (st.1, st.2.1 + 1, st.2.2)
  | .raised => (st.1, st.2.1 + 1, st.2.2)

/-- The `while True` walk of `sync_all_entries_to_cache`: a list-page
error is returned immediately; otherwise every entry of the page (at
most 50) goes through `syncEntryStep` and the walk continues until a
page has no next link. -/
def sync_loop (fd : String → DetailFetch) (now : Int) :
    List PageFetch → Nat × Nat × FS → Except String (Nat × Nat × FS)
  | [], st => .ok st
  | .fail s :: _, _ => .error (listFetchErr s)
  | .page es :: rest, st =>
    sync_loop fd now rest ((es.take 50).foldl (syncEntryStep fd now) st)

/-- Tool `sync_all_entries_to_cache`: walk the whole collection, returning
`(synced, errors)` and the final cache state, or the list-page error. -/
def sync_all_entries_to_cache (fd : String → DetailFetch) (now : Int)
    (chain : List PageFetch) (fs : FS) : Except String (Nat × Nat × FS) :=
  sync_loop fd now chain (0, 0, fs)

/-- Number of loop iterations a walk performs on `chain` (each
iteration fetches one page; a failing page is still one fetch). -/
def pagesVisited : List PageFetch → Nat
  | [] => 0
  | .fail _ :: _ => 1
  | .page _ :: rest => 1 + pagesVisited rest

/-- The entries a completed walk feeds to its per-entry processing, in
order. -/
def entriesProcessed : List PageFetch → List ListEntryR
  | [] => []
  | .fail _ :: _ => []
  | .page es :: rest => es.take 50 ++ entriesProcessed rest

/-! ## Specification-side helper definitions -/

/-- Does the detail fetch for this entry succeed?  (Specification-side
observable used to state the sync counters.) -/
def entrySyncOk (fd : String → DetailFetch) (e : ListEntryR) : Bool :=
  match fd (extractEntryId e.id) with
  | .ok _ => true
  | _ => false

/-- Cache-state effect of syncing a run of entries (the `save_cache`
calls of the successful fetches, in order). -/
def syncFsFold (fd : String → DetailFetch) (now : Int)
    (l : List ListEntryR) (fs : FS) : FS :=
  l.foldl
    (fun f e =>
      match fd (extractEntryId e.id) with
      | .ok d => save_cache ("entry_" ++ extractEntryId e.id) d now f
      | _ => f)
    fs

/-- First occurrence of each label, in encounter order (the key order
of an insertion-ordered dict built by repeated `bump`s). -/
def firstSeen (l : List String) : List String :=
  l.foldl (fun acc c => if c ∈ acc then acc else acc ++ [c]) []

/-- Value stored under the first occurrence of key `c` (0 when
absent) — the read `category_count.get(c, 0)`. -/
def lookupCount : List (String × Nat) → String → Nat
  | [], _ => 0
  | (k, n) :: rest, c => if k = c then n else lookupCount rest c

/-- The whole category stream of a run of entries, in tally order. -/
def allCats (es : List ListEntryR) : List String :=
  (es.map ListEntryR.categories).flatten

/-- Concrete record for the C1 analysis: its title contains
`"hello"`. -/
def c1Entry : JValue :=
  .jobj [("title", .jstr "hello world"), ("categories", .jarr [.jstr "diary"]),
         ("content", .jstr "body text")]

/-- Concrete record for the C2 analysis: the keyword occurs in the
content only. -/
def c2Entry : JValue :=
  .jobj [("title", .jstr "alpha"), ("categories", .jarr [.jstr "beta"]),
         ("content", .jstr "the keyword is here")]

/-- Concrete list-page entries for the pagination claims. -/
def mkE (i : Nat) (cats : List String) : ListEntryR :=
  ⟨"tag:blog-" ++ toString i, "t" ++ toString i, "l", "p", "u", cats⟩

/-! ## Sanity checks for the MD5 embedding (RFC 1321 test vectors) -/

theorem md5hex_empty : md5hex "" = "d41d8cd98f00b204e9800998ecf8427e" := by
  rfl

theorem md5hex_abc : md5hex "abc" = "900150983cd24fb0d6963f7d28e17f72" := by
  rfl

/-! ## Cache Store lemmas -/

theorem lookup_eraseFile (files : List (String × FileContent)) (n : String) :
    (eraseFile files n).lookup n = none := by
  induction files with
  | nil => rfl
  | cons p rest ih =>
    obtain ⟨k, v⟩ := p
    by_cases h : k = n
    · have e1 : eraseFile ((k, v) :: rest) n = eraseFile rest n := by
        simp [eraseFile, List.filter_cons, h]
      rw [e1]
      exact ih
    · have h2 : (n == k) = false := beq_eq_false_iff_ne.mpr (Ne.symm h)
      have e1 : eraseFile ((k, v) :: rest) n = (k, v) :: eraseFile rest n := by
        simp [eraseFile, List.filter_cons, h]
      rw [e1, List.lookup, h2]
      exact ih

/-- C4 — expired entries: a stored record whose `cached_at` is older
than the expiry window is absent on `load_cache` and its file is
deleted by the call. -/
theorem load_cache_expired (key : String) (now cachedAt : Int) (data : JValue)
    (fs : FS)
    (hstored : fs.files.lookup (get_cache_path key) =
      some (.valid cachedAt data))
    (hold : now - cachedAt > CACHE_EXPIRY_HOURS) :
    (load_cache key now fs).1 = none ∧
      (load_cache key now fs).2.files.lookup (get_cache_path key) = none := by
  unfold load_cache
  rw [hstored]
  exact ⟨by simp [hold], by simp [hold, lookup_eraseFile]⟩

theorem load_cache_expired_witness :
    (load_cache "entry_1" 8761
        ⟨true, [(get_cache_path "entry_1", .valid 0 (.jobj []))]⟩).1 = none ∧
      (load_cache "entry_1" 8761
        ⟨true, [(get_cache_path "entry_1", .valid 0 (.jobj []))]⟩).2.files.lookup
          (get_cache_path "entry_1") = none :=
  load_cache_expired "entry_1" 8761 0 (.jobj [])
    ⟨true, [(get_cache_path "entry_1", .valid 0 (.jobj []))]⟩
    (by simp [List.lookup]) (by decide)

/-- C5 — corrupt entries: a stored file that does not deserialize
(invalid JSON, missing `cached_at`/`data` fields) is absent on
`load_cache` — no error is surfaced — and its file is deleted by the
call. -/
theorem load_cache_corrupt (key : String) (now : Int) (fs : FS)
    (hstored : fs.files.lookup (get_cache_path key) = some .invalid) :
    (load_cache key now fs).1 = none ∧
      (load_cache key now fs).2.files.lookup (get_cache_path key) = none := by
  unfold load_cache
  rw [hstored]
  exact ⟨rfl, lookup_eraseFile fs.files (get_cache_path key)⟩

theorem load_cache_corrupt_witness :
    (load_cache "entry_1" 0 ⟨true, [(get_cache_path "entry_1", .invalid)]⟩).1 =
        none ∧
      (load_cache "entry_1" 0
        ⟨true, [(get_cache_path "entry_1", .invalid)]⟩).2.files.lookup
          (get_cache_path "entry_1") = none :=
  load_cache_corrupt "entry_1" 0 ⟨true, [(get_cache_path "entry_1", .invalid)]⟩
    (by simp [List.lookup])

/-- C6 — round trip: `save_cache(k, v)` immediately followed by
`load_cache(k)` returns `v` unchanged, from any starting cache
state. -/
theorem save_cache_load_cache_roundtrip (key : String) (data : JValue)
    (now : Int) (fs : FS) :
    (load_cache key now (save_cache key data now fs)).1 = some data := by
  simp [load_cache, save_cache, List.lookup, CACHE_EXPIRY_HOURS]

theorem save_cache_load_cache_roundtrip_witness :
    (load_cache "entry_9" 5 (save_cache "entry_9" (.jstr "v") 5 ⟨false, []⟩)).1 =
      some (.jstr "v") :=
  save_cache_load_cache_roundtrip "entry_9" (.jstr "v") 5 ⟨false, []⟩

/-- C7 counterexample — on an existing but empty cache directory,
`clear_cache` returns `True` even though no stored entry existed
before the call. -/
theorem clear_cache_true_on_empty_dir :
    (clear_cache ⟨true, []⟩).1 = true ∧ (FS.mk true []).files = [] :=
  ⟨rfl, rfl⟩

/-- C7 (amended) — `clear_cache` deletes every stored entry and
returns `True` exactly when the cache *directory* existed before the
call (whether or not it held any entries); on a non-existent directory
it returns `False` and changes nothing, rather than erroring. -/
theorem clear_cache_spec (fs : FS) :
    (clear_cache fs).1 = fs.dirExists ∧
      (fs.dirExists = true → (clear_cache fs).2.files = []) ∧
      (fs.dirExists = false → (clear_cache fs).2 = fs) := by
  by_cases h : fs.dirExists <;> simp [clear_cache, h]

theorem clear_cache_spec_witness :
    (clear_cache ⟨true, [("a.json", .invalid)]⟩).2.files = [] ∧
      (clear_cache ⟨false, []⟩).2 = ⟨false, []⟩ :=
  ⟨(clear_cache_spec ⟨true, [("a.json", .invalid)]⟩).2.1 rfl,
   (clear_cache_spec ⟨false, []⟩).2.2 rfl⟩

/-- Helper: `get_entry` is exactly the dispatch on the `load_cache` result:
no other input influences it. -/
theorem get_entry_eq (entryId : String) (now : Int) (fs : FS) :
    get_entry entryId now fs =
      ((match (load_cache ("entry_" ++ entryId) now fs).1 with
        | some v =>
          if truthy v then Except.ok v else Except.error entryNotFoundMsg
        | none => Except.error entryNotFoundMsg),
       (load_cache ("entry_" ++ entryId) now fs).2) := by
  simp only [get_entry]
  cases (load_cache ("entry_" ++ entryId) now fs).1 with
  | none => rfl
  | some w => by_cases ht : truthy w <;> simp [ht]

/-- C10 — `get_entry` is a pure cache read (its model takes no fetch
function): it returns the record exactly when `load_cache` on
`"entry_" ++ id` yields a truthy value, and a stored-but-falsy payload
produces the very same not-found error as a genuine miss. -/
theorem get_entry_cache_only (entryId : String) (now : Int) (fs : FS) :
    (∀ v, (get_entry entryId now fs).1 = .ok v ↔
        ((load_cache ("entry_" ++ entryId) now fs).1 = some v ∧
          truthy v = true)) ∧
    (∀ v, (load_cache ("entry_" ++ entryId) now fs).1 = some v →
        truthy v = false →
        (get_entry entryId now fs).1 = .error entryNotFoundMsg) ∧
    ((load_cache ("entry_" ++ entryId) now fs).1 = none →
        (get_entry entryId now fs).1 = .error entryNotFoundMsg) := by
  rw [get_entry_eq]
  cases hl : (load_cache ("entry_" ++ entryId) now fs).1 with
  | none =>
    refine ⟨fun v => by simp, fun v hv _ => by simp at hv, fun _ => rfl⟩
  | some w =>
    refine ⟨fun v => ?_, fun v hv hf => ?_, fun hn => by simp at hn⟩
    · by_cases ht : truthy w
      · simp only [ht, if_true]
        constructor
        · intro h
          injection h with h
          subst h
          exact ⟨rfl, ht⟩
        · rintro ⟨h1, -⟩
          injection h1 with h1
          subst h1
          rfl
      · simp only [ht, if_false]
        constructor
        · intro h
          injection h
        · rintro ⟨h1, hv⟩
          injection h1 with h1
          subst h1
          exact absurd hv ht
    · injection hv with hv
      subst hv
      simp [hf]

theorem get_entry_cache_only_witness :
    (get_entry "1" 0 (save_cache "entry_1" (.jobj []) 0 ⟨true, []⟩)).1 =
      .error entryNotFoundMsg :=
  (get_entry_cache_only "1" 0
      (save_cache "entry_1" (.jobj []) 0 ⟨true, []⟩)).2.1 (.jobj [])
    (by rfl) (by rfl)

/-! ## Search claims -/

/-- C1 — the cache-mode scan never examines the records `save_cache`
wrote: the loop passes each file's stem (already the MD5 hex of the
logical key) to `load_cache`, which hashes it *again* and reads
`md5(md5(key)).json`, a file that does not exist.  Concretely: after
`save_cache("entry_1", record)` — where the record's title contains
`"hello"`, so the match block would report a title match if it ever
saw the record — `search_entries("hello", 10)` returns zero entries.
The double hashing is exhibited by the two distinct digests. -/
theorem search_entries_never_reads_saved_records :
    search_entries "hello" 10 0 (save_cache "entry_1" c1Entry 0 ⟨false, []⟩) =
      .ok ⟨[], 0, "hello"⟩ ∧
    entryMatch "hello" c1Entry = .mtitle ∧
    stemOf (get_cache_path "entry_1") = md5hex "entry_1" ∧
    md5hex (md5hex "entry_1") ≠ md5hex "entry_1" := by
  refine ⟨rfl, rfl, rfl, by decide⟩

/-- C2 counterexample — a cached record whose title (`"alpha"`) and
categories (`["beta"]`) do not contain the keyword but whose content
does is *included* in the `search_entries` result even though no
`search_in_content` argument exists or was passed (the store places
the record's file where the scan's double-hashed `load_cache` read
finds it, so the record is actually loaded). -/
theorem search_content_match_counterexample :
    search_entries "keyword" 10 0
      ⟨true, [("entry_1.json", .invalid),
              (get_cache_path "entry_1", .valid 0 c2Entry)]⟩ =
      .ok ⟨[c2Entry], 1, "keyword"⟩ ∧
    entryMatch "keyword" c2Entry = .mcontent ∧
    strContains (strLower "alpha") "keyword" = false ∧
    anyCatMatches "keyword" [.jstr "beta"] = some false :=
  ⟨rfl, rfl, rfl, rfl⟩

theorem anyCatMatches_all_false (kw : String) (cats : List String)
    (h : ∀ c ∈ cats, strContains (strLower c) kw = false) :
    anyCatMatches kw (cats.map JValue.jstr) = some false := by
  induction cats with
  | nil => rfl
  | cons c cs ih =>
    simp only [List.map_cons, anyCatMatches, h c (List.mem_cons_self c cs),
      if_false]
    exact ih fun d hd => h d (List.mem_cons_of_mem c hd)

/-- C2 (amended) — `search_entries` has no `search_in_content`
parameter; the content field is always searched.  The per-entry match
block reports a content match for every record whose title and
categories miss the (lowercased) keyword but whose content contains
it, and the scan then appends such a record unconditionally. -/
theorem search_content_always_searched (t ct kw : String)
    (cats : List String)
    (htitle : strContains (strLower t) kw = false)
    (hcats : ∀ c ∈ cats, strContains (strLower c) kw = false)
    (hcontent : strContains (strLower ct) kw = true) :
    entryMatch kw
      (.jobj [("title", .jstr t), ("categories", .jarr (cats.map .jstr)),
              ("content", .jstr ct)]) = .mcontent := by
  have e0 : ("title" == "title") = true := rfl
  have e1 : ("categories" == "title") = false := rfl
  have e2 : ("categories" == "categories") = true := rfl
  have e3 : ("content" == "title") = false := rfl
  have e4 : ("content" == "categories") = false := rfl
  have e5 : ("content" == "content") = true := rfl
  simp [entryMatch, pyGetField, List.lookup, e0, e1, e2, e3, e4, e5, htitle,
    hcontent, anyCatMatches_all_false kw cats hcats]

theorem search_content_always_searched_witness :
    entryMatch "keyword"
      (.jobj [("title", .jstr "alpha"),
              ("categories", .jarr (["beta"].map .jstr)),
              ("content", .jstr "the keyword is here")]) = .mcontent :=
  search_content_always_searched "alpha" "the keyword is here" "keyword"
    ["beta"] rfl (by decide) rfl

/-! ## Sync engine lemmas -/

theorem sync_foldl_eq (fd : String → DetailFetch) (now : Int)
    (l : List ListEntryR) (st : Nat × Nat × FS) :
    l.foldl (syncEntryStep fd now) st =
      (st.1 + l.countP (entrySyncOk fd),
       st.2.1 + l.countP (fun e => !entrySyncOk fd e),
       syncFsFold fd now l st.2.2) := by
  induction l generalizing st with
  | nil => simp [syncFsFold]
  | cons e rest ih =>
    obtain ⟨a, b, f⟩ := st
    cases hfd : fd (extractEntryId e.id) with
    | ok d =>
      have hok : entrySyncOk fd e = true := by simp [entrySyncOk, hfd]
      simp only [List.foldl_cons, syncEntryStep, hfd, ih, List.countP_cons,
        hok, syncFsFold, Bool.not_true]
      simp
      omega
    | err s =>
      have hok : entrySyncOk fd e = false := by simp [entrySyncOk, hfd]
      simp only [List.foldl_cons, syncEntryStep, hfd, ih, List.countP_cons,
        hok, syncFsFold, Bool.not_false]
      simp
      omega
    | raised =>
      have hok : entrySyncOk fd e = false := by simp [entrySyncOk, hfd]
      simp only [List.foldl_cons, syncEntryStep, hfd, ih, List.countP_cons,
        hok, syncFsFold, Bool.not_false]
      simp
      omega

theorem sync_loop_pages (fd : String → DetailFetch) (now : Int)
    (pages : List (List ListEntryR)) (st : Nat × Nat × FS) :
    sync_loop fd now (pages.map PageFetch.page) st =
      .ok (st.1 + (entriesProcessed (pages.map PageFetch.page)).countP
             (entrySyncOk fd),
           st.2.1 + (entriesProcessed (pages.map PageFetch.page)).countP
             (fun e => !entrySyncOk fd e),
           syncFsFold fd now (entriesProcessed (pages.map PageFetch.page))
             st.2.2) := by
  induction pages generalizing st with
  | nil => simp [sync_loop, entriesProcessed, syncFsFold]
  | cons p rest ih =>
    simp only [List.map_cons, sync_loop, sync_foldl_eq, ih, entriesProcessed,
      List.countP_append, syncFsFold, List.foldl_append]
    simp
    omega

theorem sync_loop_fail (fd : String → DetailFetch) (now : Int)
    (pages : List (List ListEntryR)) (status : Nat) (rest : List PageFetch)
    (st : Nat × Nat × FS) :
    sync_loop fd now (pages.map PageFetch.page ++ PageFetch.fail status :: rest)
        st = .error (listFetchErr status) := by
  induction pages generalizing st with
  | nil => rfl
  | cons p ps ih =>
    simp only [List.map_cons, List.cons_append, sync_loop]
    exact ih _

/-- C3 — sync is best-effort per entry and fail-fast per page: over
any error-free page chain the walk runs to the end, counting exactly
the entries whose detail fetch succeeds in `synced` and exactly the
failing ones (error result or exception) in `errors`; but a chain
whose next list page fails makes the whole operation return that
page's error immediately — the result does not depend on anything
after the failing page. -/
theorem sync_partial_failure_tolerance :
    (∀ (fd : String → DetailFetch) (now : Int) (fs : FS)
        (pages : List (List ListEntryR)),
        sync_all_entries_to_cache fd now (pages.map PageFetch.page) fs =
          .ok ((entriesProcessed (pages.map PageFetch.page)).countP
                 (entrySyncOk fd),
               (entriesProcessed (pages.map PageFetch.page)).countP
                 (fun e => !entrySyncOk fd e),
               syncFsFold fd now (entriesProcessed (pages.map PageFetch.page))
                 fs)) ∧
    (∀ (fd : String → DetailFetch) (now : Int) (fs : FS)
        (pages : List (List ListEntryR)) (status : Nat)
        (rest : List PageFetch),
        sync_all_entries_to_cache fd now
            (pages.map PageFetch.page ++ PageFetch.fail status :: rest) fs =
          .error (listFetchErr status)) := by
  constructor
  · intro fd now fs pages
    simpa [sync_all_entries_to_cache] using sync_loop_pages fd now pages (0, 0, fs)
  · intro fd now fs pages status rest
    exact sync_loop_fail fd now pages status rest (0, 0, fs)

theorem sync_partial_failure_tolerance_witness :
    sync_all_entries_to_cache (fun _ => .raised) 0
        ([[mkE 1 ["A"]]].map PageFetch.page) ⟨false, []⟩ =
      .ok (0, 1, ⟨false, []⟩) := by
  have h := sync_partial_failure_tolerance.1 (fun _ => .raised) 0 ⟨false, []⟩
    [[mkE 1 ["A"]]]
  rw [h]
  rfl

/-! ## Pagination walk lemmas -/

theorem pagesVisited_pages (pages : List (List ListEntryR)) :
    pagesVisited (pages.map PageFetch.page) = pages.length := by
  induction pages with
  | nil => rfl
  | cons p rest ih => simp [pagesVisited, ih, Nat.add_comm]

theorem countP_partition {α} (p : α → Bool) (l : List α) :
    l.countP p + l.countP (fun a => !p a) = l.length := by
  induction l with
  | nil => rfl
  | cons a l ih => cases h : p a <;> simp [List.countP_cons, h] <;> omega

theorem tallyPage_append (acc : List (String × Nat))
    (l1 l2 : List ListEntryR) :
    tallyPage acc (l1 ++ l2) = tallyPage (tallyPage acc l1) l2 := by
  simp [tallyPage, List.foldl_append]

theorem entriesProcessed_full (pages : List (List ListEntryR))
    (h : ∀ p ∈ pages, p.length ≤ 50) :
    entriesProcessed (pages.map PageFetch.page) = pages.flatten := by
  induction pages with
  | nil => rfl
  | cons p rest ih =>
    simp only [List.map_cons, entriesProcessed, List.flatten_cons]
    rw [List.take_of_length_le (h p (List.mem_cons_self p rest)),
      ih fun q hq => h q (List.mem_cons_of_mem p hq)]

theorem get_categories_loop_pages (pages : List (List ListEntryR))
    (acc : List (String × Nat)) :
    get_categories_loop (pages.map PageFetch.page) acc =
      .ok (pages.foldl (fun a p => tallyPage a (p.take 50)) acc) := by
  induction pages generalizing acc with
  | nil => rfl
  | cons p rest ih =>
    simp only [List.map_cons, get_categories_loop, List.foldl_cons]
    exact ih _

theorem tally_fold_flatten (pages : List (List ListEntryR))
    (acc : List (String × Nat)) (h : ∀ p ∈ pages, p.length ≤ 50) :
    pages.foldl (fun a p => tallyPage a (p.take 50)) acc =
      tallyPage acc pages.flatten := by
  induction pages generalizing acc with
  | nil => rfl
  | cons p rest ih =>
    simp only [List.foldl_cons, List.flatten_cons]
    rw [List.take_of_length_le (h p (List.mem_cons_self p rest)),
      tallyPage_append, ih _ fun q hq => h q (List.mem_cons_of_mem p hq)]

theorem pages_ceil (P k0 r : Nat) (hP : 0 < P) (hr1 : 0 < r) (hrP : r ≤ P) :
    (P * k0 + r + P - 1) / P = k0 + 1 := by
  have hsucc : P * (k0 + 1) = P * k0 + P := Nat.mul_succ P k0
  have e : P * k0 + r + P - 1 = P * (k0 + 1) + (r - 1) := by omega
  rw [e, Nat.mul_add_div hP, Nat.div_eq_of_lt (by omega)]

/-- C8 counterexample — a single page holding 51 entries with no next
link: the walk visits 1 page (which is `⌈51/51⌉`), but only the first
50 entries are ever processed, because every walker calls
`list_entries` with `max_results=50` and the XPath slice drops the
rest; `get_categories` tallies 50 — not 51 — occurrences of the single
category. -/
theorem pagination_truncation_counterexample :
    pagesVisited [PageFetch.page (List.replicate 51 (mkE 1 ["A"]))] = 1 ∧
    (51 + 51 - 1) / 51 = 1 ∧
    entriesProcessed [PageFetch.page (List.replicate 51 (mkE 1 ["A"]))] =
      List.replicate 50 (mkE 1 ["A"]) ∧
    List.replicate 50 (mkE 1 ["A"]) ≠ List.replicate 51 (mkE 1 ["A"]) ∧
    get_categories [PageFetch.page (List.replicate 51 (mkE 1 ["A"]))] =
      .ok ([("A", 50)], 1) := by
  refine ⟨rfl, rfl, rfl, fun h => by simpa using congrArg List.length h, rfl⟩

/-- C8 (amended) — provided every page holds at most 50 entries (the
`max_results` the full-collection walkers pass to `list_entries`): for
a collection of `N` entries split across pages of size `P` (all pages
full except possibly the last, which is non-empty) with correct next
links and no concurrent mutation, the walk performs exactly
`⌈N/P⌉ = pages.length` iterations, exiting exactly when the last page
yields no next cursor, and processes each of the `N` entries exactly
once — in particular the category walk tallies exactly the full
collection and sync's `synced + errors` accounts for every entry
exactly once. -/
theorem pagination_walk_complete (pages : List (List ListEntryR)) (P : Nat)
    (fd : String → DetailFetch) (now : Int) (fs : FS)
    (hne : pages ≠ [])
    (hP : 0 < P) (hP50 : P ≤ 50)
    (hfull : ∀ p ∈ pages.dropLast, p.length = P)
    (hlast : ∀ p, pages.getLast? = some p → 0 < p.length ∧ p.length ≤ P) :
    pagesVisited (pages.map PageFetch.page) = pages.length ∧
    pages.length = (pages.flatten.length + P - 1) / P ∧
    entriesProcessed (pages.map PageFetch.page) = pages.flatten ∧
    get_categories_loop (pages.map PageFetch.page) [] =
      .ok (tallyPage [] pages.flatten) ∧
    sync_all_entries_to_cache fd now (pages.map PageFetch.page) fs =
      .ok (pages.flatten.countP (entrySyncOk fd),
           pages.flatten.countP (fun e => !entrySyncOk fd e),
           syncFsFold fd now pages.flatten fs) ∧
    pages.flatten.countP (entrySyncOk fd) +
        pages.flatten.countP (fun e => !entrySyncOk fd e) =
      pages.flatten.length := by
  have hgl : pages.getLast? = some (pages.getLast hne) :=
    List.getLast?_eq_getLast pages hne
  have hdecomp : pages.dropLast ++ [pages.getLast hne] = pages :=
    List.dropLast_append_getLast hne
  have hsize : ∀ p ∈ pages, p.length ≤ 50 := by
    intro p hp
    rw [← hdecomp] at hp
    rcases List.mem_append.mp hp with h1 | h2
    · rw [hfull p h1]; exact hP50
    · have : p = pages.getLast hne := by simpa using h2
      subst this
      exact le_trans ((hlast _ hgl).2) hP50
  have hproc := entriesProcessed_full pages hsize
  refine ⟨pagesVisited_pages pages, ?_, hproc, ?_, ?_, ?_⟩
  · -- N = P * (k - 1) + r with the last page size r ∈ [1, P]
    have hlen : pages.flatten.length =
        P * (pages.length - 1) + (pages.getLast hne).length := by
      conv_lhs => rw [← hdecomp]
      rw [List.flatten_append, List.length_append]
      have hrep : pages.dropLast.map List.length =
          List.replicate (pages.dropLast.map List.length).length P := by
        apply List.eq_replicate_of_mem
        intro b hb
        rcases List.mem_map.mp hb with ⟨p, hp, rfl⟩
        exact hfull p hp
      have : pages.dropLast.flatten.length = P * (pages.length - 1) := by
        rw [List.length_flatten, hrep, List.sum_replicate, smul_eq_mul,
          List.length_map, List.length_dropLast, Nat.mul_comm]
      rw [this]
      simp
    rw [hlen]
    obtain ⟨k0, hk0⟩ : ∃ k0, pages.length = k0 + 1 :=
      ⟨pages.length - 1, by
        have := List.length_pos.mpr hne
        omega⟩
    rw [hk0]
    simp only [Nat.add_sub_cancel]
    exact (pages_ceil P k0 (pages.getLast hne).length hP (hlast _ hgl).1
      (hlast _ hgl).2).symm
  · rw [get_categories_loop_pages, tally_fold_flatten pages [] hsize]
  · rw [show sync_all_entries_to_cache fd now (pages.map PageFetch.page) fs =
      sync_loop fd now (pages.map PageFetch.page) (0, 0, fs) from rfl,
      sync_loop_pages, hproc]
    simp
  · exact countP_partition (entrySyncOk fd) pages.flatten

theorem pagination_walk_complete_witness :
    pagesVisited
        ([[mkE 1 ["A"], mkE 2 ["A"]], [mkE 3 ["B"]]].map PageFetch.page) = 2 ∧
    ([[mkE 1 ["A"], mkE 2 ["A"]], [mkE 3 ["B"]]] :
        List (List ListEntryR)).length =
      (([[mkE 1 ["A"], mkE 2 ["A"]], [mkE 3 ["B"]]] :
          List (List ListEntryR)).flatten.length + 2 - 1) / 2 := by
  have h := pagination_walk_complete
    [[mkE 1 ["A"], mkE 2 ["A"]], [mkE 3 ["B"]]] 2 (fun _ => .raised) 0
    ⟨false, []⟩ (by simp) (by decide) (by decide)
    (by intro p hp; simp at hp; subst hp; rfl)
    (by intro p hp; simp at hp; subst hp; exact ⟨by decide, by decide⟩)
  exact ⟨h.1, h.2.1⟩

/-! ## Category tally lemmas -/

theorem lookupCount_bump (acc : List (String × Nat)) (c c' : String) :
    lookupCount (bump acc c) c' =
      lookupCount acc c' + (if c' = c then 1 else 0) := by
  induction acc with
  | nil =>
    by_cases h : c' = c
    · simp [bump, lookupCount, h]
    · have h3 : ¬(c = c') := fun e => h e.symm
      simp [bump, lookupCount, h, h3]
  | cons p rest ih =>
    obtain ⟨k, n⟩ := p
    by_cases hk : k = c
    · by_cases h2 : k = c'
      · have hcc : c' = c := h2.symm.trans hk
        simp [bump, hk, lookupCount, h2, hcc]
      · have hcc : ¬(c' = c) := fun e => h2 (hk.trans e.symm)
        have hcc2 : ¬(c = c') := fun e => h2 (hk.trans e)
        simp [bump, hk, lookupCount, h2, hcc, hcc2]
    · by_cases h2 : k = c'
      · have hcc : ¬(c' = c) := fun e => hk (h2.trans e)
        simp [bump, hk, lookupCount, h2, hcc]
      · simp [bump, hk, lookupCount, h2, ih]

theorem lookupCount_foldl_bump (l : List String) (acc : List (String × Nat))
    (c : String) :
    lookupCount (l.foldl bump acc) c = lookupCount acc c + l.count c := by
  induction l generalizing acc with
  | nil => simp
  | cons a l ih =>
    rw [List.foldl_cons, ih, lookupCount_bump, List.count_cons]
    by_cases h : c = a
    · simp [h]
      omega
    · have h3 : ¬(a = c) := fun e => h e.symm
      simp [h, h3]

theorem keys_bump (acc : List (String × Nat)) (c : String) :
    (bump acc c).map Prod.fst =
      if c ∈ acc.map Prod.fst then acc.map Prod.fst
      else acc.map Prod.fst ++ [c] := by
  induction acc with
  | nil => simp [bump]
  | cons p rest ih =>
    obtain ⟨k, n⟩ := p
    by_cases hk : k = c
    · subst hk; simp [bump]
    · rw [bump, if_neg hk]
      by_cases hm : c ∈ rest.map Prod.fst <;>
        simp [hm, ih, Ne.symm hk]

theorem keys_nodup_bump (acc : List (String × Nat)) (c : String)
    (h : (acc.map Prod.fst).Nodup) : ((bump acc c).map Prod.fst).Nodup := by
  rw [keys_bump]
  by_cases hm : c ∈ acc.map Prod.fst
  · simpa [hm] using h
  · simp [hm, List.nodup_append, h]

theorem keys_foldl_bump (l : List String) (acc : List (String × Nat)) :
    (l.foldl bump acc).map Prod.fst =
      l.foldl (fun ks c => if c ∈ ks then ks else ks ++ [c])
        (acc.map Prod.fst) := by
  induction l generalizing acc with
  | nil => rfl
  | cons a l ih => rw [List.foldl_cons, List.foldl_cons, ih, keys_bump]

theorem keys_nodup_foldl_bump (l : List String) (acc : List (String × Nat))
    (h : (acc.map Prod.fst).Nodup) :
    ((l.foldl bump acc).map Prod.fst).Nodup := by
  induction l generalizing acc with
  | nil => exact h
  | cons a l ih => exact ih _ (keys_nodup_bump acc a h)

theorem tallyPage_eq_foldl_bump (es : List ListEntryR)
    (acc : List (String × Nat)) :
    tallyPage acc es = (allCats es).foldl bump acc := by
  induction es generalizing acc with
  | nil => rfl
  | cons e rest ih =>
    have hsplit : allCats (e :: rest) = e.categories ++ allCats rest := by
      simp [allCats]
    rw [show tallyPage acc (e :: rest) =
        tallyPage (e.categories.foldl bump acc) rest from rfl,
      ih, hsplit, List.foldl_append]

theorem tally_keys_firstSeen (es : List ListEntryR) :
    (tallyPage [] es).map Prod.fst = firstSeen (allCats es) := by
  rw [tallyPage_eq_foldl_bump, keys_foldl_bump]
  rfl

theorem mem_value_eq_lookupCount (acc : List (String × Nat))
    (pr : String × Nat) (hmem : pr ∈ acc)
    (hnd : (acc.map Prod.fst).Nodup) : pr.2 = lookupCount acc pr.1 := by
  induction acc with
  | nil => cases hmem
  | cons p rest ih =>
    obtain ⟨k, n⟩ := p
    rcases List.mem_cons.mp hmem with h | h
    · subst h; simp [lookupCount]
    · have hk : ¬(k = pr.1) := by
        intro e
        apply (List.nodup_cons.mp hnd).1
        rw [e]
        exact List.mem_map.mpr ⟨pr, h, rfl⟩
      rw [lookupCount, if_neg hk]
      exact ih h (List.nodup_cons.mp hnd).2

theorem count_allCats (es : List ListEntryR) (c : String)
    (hnd : ∀ e ∈ es, e.categories.Nodup) :
    (allCats es).count c = es.countP (fun e => decide (c ∈ e.categories)) := by
  induction es with
  | nil => rfl
  | cons e rest ih =>
    rw [allCats, List.map_cons, List.flatten_cons,
      show (e.categories ++ (rest.map ListEntryR.categories).flatten).count c =
        e.categories.count c + (allCats rest).count c from List.count_append ..,
      List.countP_cons, ih fun q hq => hnd q (List.mem_cons_of_mem e hq)]
    have he := hnd e (List.mem_cons_self e rest)
    by_cases hm : c ∈ e.categories
    · rw [List.count_eq_one_of_mem he hm]
      simp [hm]
      omega
    · rw [List.count_eq_zero_of_not_mem hm]
      simp [hm]

/-! ## Stable descending sort lemmas -/

theorem mem_insDesc (x y : String × Nat) (l : List (String × Nat)) :
    y ∈ insDesc x l ↔ y = x ∨ y ∈ l := by
  induction l with
  | nil => simp [insDesc]
  | cons z zs ih =>
    by_cases h : z.2 ≤ x.2
    · simp [insDesc, h]
    · simp [insDesc, h, ih]
      tauto

theorem mem_sortCountDesc (l : List (String × Nat)) (y : String × Nat) :
    y ∈ sortCountDesc l ↔ y ∈ l := by
  induction l with
  | nil => simp [sortCountDesc]
  | cons x xs ih => simp [sortCountDesc, mem_insDesc, ih]

theorem pairwise_insDesc (x : String × Nat) (l : List (String × Nat))
    (h : l.Pairwise (fun a b => b.2 ≤ a.2)) :
    (insDesc x l).Pairwise (fun a b => b.2 ≤ a.2) := by
  induction l with
  | nil => simp [insDesc]
  | cons z zs ih =>
    by_cases hz : z.2 ≤ x.2
    · rw [insDesc, if_pos hz]
      refine List.Pairwise.cons ?_ h
      intro b hb
      rcases List.mem_cons.mp hb with rfl | hbz
      · exact hz
      · exact le_trans ((List.pairwise_cons.mp h).1 b hbz) hz
    · rw [insDesc, if_neg hz]
      obtain ⟨hzall, hzs⟩ := List.pairwise_cons.mp h
      refine List.Pairwise.cons ?_ (ih hzs)
      intro b hb
      rcases (mem_insDesc x b zs).mp hb with rfl | hbz
      · exact le_of_lt (lt_of_not_le hz)
      · exact hzall b hbz

theorem pairwise_sortCountDesc (l : List (String × Nat)) :
    (sortCountDesc l).Pairwise (fun a b => b.2 ≤ a.2) := by
  induction l with
  | nil => simp [sortCountDesc]
  | cons x xs ih => exact pairwise_insDesc x _ ih

theorem filter_insDesc (x : String × Nat) (l : List (String × Nat)) (n : Nat) :
    (insDesc x l).filter (fun q => q.2 == n) =
      if x.2 = n then x :: l.filter (fun q => q.2 == n)
      else l.filter (fun q => q.2 == n) := by
  induction l with
  | nil => by_cases h : x.2 = n <;> simp [insDesc, h]
  | cons z zs ih =>
    by_cases hz : z.2 ≤ x.2
    · rw [insDesc, if_pos hz]
      by_cases h : x.2 = n <;> simp [List.filter_cons, h]
    · rw [insDesc, if_neg hz]
      by_cases h : x.2 = n
      · have hzn : ¬(z.2 = n) := by omega
        rw [if_pos h, List.filter_cons, List.filter_cons]
        simp [hzn, ih, h]
      · rw [if_neg h, List.filter_cons, List.filter_cons]
        by_cases hzn2 : z.2 = n <;> simp [hzn2, ih, h]

theorem filter_sortCountDesc (l : List (String × Nat)) (n : Nat) :
    (sortCountDesc l).filter (fun q => q.2 == n) =
      l.filter (fun q => q.2 == n) := by
  induction l with
  | nil => rfl
  | cons x xs ih =>
    rw [sortCountDesc, filter_insDesc, List.filter_cons]
    by_cases h : x.2 = n <;> simp [h, ih]

/-- C9 — `get_categories` over the full collection: every returned
`(name, count)` pair counts exactly the entries carrying that
category (one increment per entry per label); the result is sorted by
count, descending; restricted to any fixed count the result preserves
the tally order unchanged, and the tally order is first-seen
(insertion) order of the labels — together: ties appear in first-seen
order.  (Pages are assumed within the walkers' 50-entry
`max_results`, cf. the C8 analysis, and each entry's label list is
duplicate-free, as the data model's label *set* prescribes.) -/
theorem get_categories_aggregation (pages : List (List ListEntryR))
    (hsize : ∀ p ∈ pages, p.length ≤ 50)
    (hnd : ∀ e ∈ pages.flatten, e.categories.Nodup) :
    get_categories (pages.map PageFetch.page) =
      .ok (sortCountDesc (tallyPage [] pages.flatten),
           (sortCountDesc (tallyPage [] pages.flatten)).length) ∧
    (∀ pr ∈ sortCountDesc (tallyPage [] pages.flatten),
        pr.2 = pages.flatten.countP (fun e => decide (pr.1 ∈ e.categories))) ∧
    (sortCountDesc (tallyPage [] pages.flatten)).Pairwise
      (fun a b => b.2 ≤ a.2) ∧
    (∀ n, (sortCountDesc (tallyPage [] pages.flatten)).filter
        (fun q => q.2 == n) =
      (tallyPage [] pages.flatten).filter (fun q => q.2 == n)) ∧
    (tallyPage [] pages.flatten).map Prod.fst =
      firstSeen (allCats pages.flatten) := by
  refine ⟨?_, ?_, pairwise_sortCountDesc _,
    fun n => filter_sortCountDesc _ n, tally_keys_firstSeen _⟩
  · rw [get_categories, get_categories_loop_pages,
      tally_fold_flatten pages [] hsize]
  · intro pr hpr
    have hmem : pr ∈ tallyPage [] pages.flatten :=
      (mem_sortCountDesc _ pr).mp hpr
    have hkeys : ((tallyPage [] pages.flatten).map Prod.fst).Nodup := by
      rw [tallyPage_eq_foldl_bump]
      exact keys_nodup_foldl_bump _ [] (by simp)
    rw [mem_value_eq_lookupCount _ pr hmem hkeys, tallyPage_eq_foldl_bump,
      lookupCount_foldl_bump, count_allCats pages.flatten pr.1 hnd]
    simp [lookupCount]

theorem get_categories_aggregation_witness :
    get_categories
        ([[mkE 1 ["A"], mkE 2 ["A"]], [mkE 3 ["B"]]].map PageFetch.page) =
      .ok ([("A", 2), ("B", 1)], 2) := by
  have h := get_categories_aggregation [[mkE 1 ["A"], mkE 2 ["A"]], [mkE 3 ["B"]]]
    (by intro p hp; simp at hp; rcases hp with rfl | rfl <;> decide)
    (by intro e he; simp at he; rcases he with rfl | rfl | rfl <;> decide)
  rw [h.1]
  rfl

end HatenaBlogMCP
